import Mathlib

/-!
Shallow embedding of `src/output/mod.rs` (hayagriva): the citation marker
formatters (`KeyCitationFormatter`, `NumericalCitationFormatter`) and the
rich-text buffer `DisplayString` with its ANSI renderer, together with
theorems settling the specification claims.

Modelling conventions:
* Rust `usize` values (citation numbers, byte offsets) are `Nat`; the one
  place where `usize` subtraction can underflow (`r.end == number - 1`)
  is modelled explicitly: the embedding returns `none` there, standing for
  the Rust panic on debug-mode underflow.
* The entries `HashMap` is only ever consulted through `contains_key`, so
  the known-entries view is a `List String` of keys queried with
  `List.contains`.
* Rust's `sort_by` is a stable sort; it is embedded as a stable insertion
  sort with the same comparator (extensionally equal to any stable sort).
* Rust string values are Lean `String`s; `value.len()` is the UTF-8 byte
  length `String.utf8ByteSize`, and in-bounds byte slicing
  `&value[i..j]` is `String.extract ⟨i⟩ ⟨j⟩`.
-/

/-- Error type of the citation formatters (`CitationError` in the source). -/
inductive CitationError where
  | KeyNotFound (key : String)
  | NoNumber (key : String)
deriving DecidableEq, Repr

/-- One cited source within a combined citation mark (`AtomicCitation`). -/
structure AtomicCitation where
  key : String
  supplement : Option String
  number : Option Nat
deriving DecidableEq, Repr

/-- Rust `Vec::join` / slice `join` on strings: concatenation with a
separator between consecutive elements. -/
def joinStrings (sep : String) : List String → String
  | [] => ""
  | [x] => x
  | x :: xs => x ++ sep ++ joinStrings sep xs

/-- Loop body accumulation of `KeyCitationFormatter::get_reference`: check
each key, render `key` or `key (supplement)`, failing fast on the first
absent key. -/
def keyCollect (entries : List String) : List AtomicCitation → Except CitationError (List String)
  | [] => Except.ok []
  | atomic :: rest =>
    if !entries.contains atomic.key then
      Except.error (CitationError.KeyNotFound atomic.key)
    else
      let item :=
        match atomic.supplement with
        | some supplement => atomic.key ++ " (" ++ supplement ++ ")"
        | none => atomic.key
      match keyCollect entries rest with
      | Except.error e => Except.error e
      | Except.ok items => Except.ok (item :: items)

/-- Embedding of `KeyCitationFormatter::get_reference`: render all items and join them
with `", "`. -/
def keyGetReference (entries : List String) (citation : List AtomicCitation) :
    Except CitationError String :=
  match keyCollect entries citation with
  | Except.error e => Except.error e
  | Except.ok items => Except.ok (joinStrings ", " items)

/-- First phase of `NumericalCitationFormatter::get_reference`: for each item
check key existence (else `KeyNotFound`), then require a number (else
`NoNumber`), collecting `(number, supplement)` pairs in input order. -/
def collectIds (entries : List String) :
    List AtomicCitation → Except CitationError (List (Nat × Option String))
  | [] => Except.ok []
  | atomic :: rest =>
    if !entries.contains atomic.key then
      Except.error (CitationError.KeyNotFound atomic.key)
    else
      match atomic.number with
      | none => Except.error (CitationError.NoNumber atomic.key)
      | some number =>
        match collectIds entries rest with
        | Except.error e => Except.error e
        | Except.ok ids => Except.ok ((number, atomic.supplement) :: ids)

/-- Stable insertion into an ascending-by-first-component list; among equal
keys the inserted (originally earlier) element stays first. -/
def insertAsc (x : Nat × Option String) :
    List (Nat × Option String) → List (Nat × Option String)
  | [] => [x]
  | y :: ys => if x.1 ≤ y.1 then x :: y :: ys else y :: insertAsc x ys

/-- Embedding of `ids.sort_by(|(a, _), (b, _)| a.cmp(&b))`: Rust's stable
sort on the number component, realised as a stable insertion sort. -/
def sortAsc : List (Nat × Option String) → List (Nat × Option String)
  | [] => []
  | x :: xs => insertAsc x (sortAsc xs)

/-- The compaction loop's element type (`CiteElement` in the source):
either a contiguous inclusive range or a supplemented single number. -/
inductive CiteElement where
  | Range (start stop : Nat)
  | Single (n : Nat) (s : Option String)
deriving DecidableEq, Repr

/-- State of the compaction loop: the emitted elements plus a ghost flag
recording whether the fallback match arm guarded by
`supplement.is_some()` (the dead arm) was ever taken. -/
structure CompactState where
  elems : List CiteElement
  deadArm : Bool
deriving DecidableEq, Repr

/-- The `match res_elems.last()` of the compaction loop, reached only when
the current item has no supplement. `none` models the `usize` underflow
panic of `number - 1` in the first arm's guard when `number = 0`. -/
def citeMatch (st : CompactState) (number : Nat) (supplement : Option String) :
    Option CompactState :=
  match st.elems.getLast? with
  | some (CiteElement.Range s e) =>
    if number = 0 then none
    else if e = number - 1 then
      some { st with elems := st.elems.dropLast ++ [CiteElement.Range s number] }
    else if supplement.isSome then
      some { elems := st.elems ++ [CiteElement.Single number supplement], deadArm := true }
    else
      some { st with elems := st.elems ++ [CiteElement.Range number number] }
  | _ =>
    if supplement.isSome then
      some { elems := st.elems ++ [CiteElement.Single number supplement], deadArm := true }
    else
      some { st with elems := st.elems ++ [CiteElement.Range number number] }

/-- One iteration of the compaction loop over a sorted `(number, supplement)`
pair: a supplemented pair is pushed as a standalone `Single` and the
iteration continues early; otherwise the match on the last element runs. -/
def compactStep (st : CompactState) (p : Nat × Option String) : Option CompactState :=
  match p.2 with
  | some s => some { st with elems := st.elems ++ [CiteElement.Single p.1 (some s)] }
  | none => citeMatch st p.1 p.2

/-- The full compaction loop (`for (number, supplement) in ids`). -/
def compactLoop (st : CompactState) : List (Nat × Option String) → Option CompactState
  | [] => some st
  | p :: rest =>
    match compactStep st p with
    | none => none
    | some st' => compactLoop st' rest

/-- Rendering of one compacted element: a non-degenerate range prints
`start-end`, a degenerate one the bare number, a single `n, supplement`
or the bare number. -/
def renderElem : CiteElement → String
  | CiteElement.Range s e =>
    if s ≠ e then toString s ++ "-" ++ toString e else toString s
  | CiteElement.Single n s =>
    match s with
    | some sup => toString n ++ ", " ++ sup
    | none => toString n

/-- Embedding of `NumericalCitationFormatter::get_reference`: collect, sort, compact,
render, join with `"; "` and wrap in brackets. The outer `Option` is
`none` exactly when the compaction loop hits the `usize` underflow. -/
def numericalGetReference (entries : List String) (citation : List AtomicCitation) :
    Option (Except CitationError String) :=
  match collectIds entries citation with
  | Except.error e => some (Except.error e)
  | Except.ok ids =>
    match compactLoop ⟨[], false⟩ (sortAsc ids) with
    | none => none
    | some st =>
      some (Except.ok ("[" ++ joinStrings "; " (st.elems.map renderElem) ++ "]"))

/-- Formatting modifiers for strings (`Formatting` in the source). -/
inductive Formatting where
  | Bold
  | Italic
  | NoHyphenation
deriving DecidableEq, Repr

/-- Moves a format range's indices by `o` (`offset_format_range`). -/
def offset_format_range (r : (Nat × Nat) × Formatting) (o : Nat) :
    (Nat × Nat) × Formatting :=
  ((r.1.1 + o, r.1.2 + o), r.2)

/-- A printable string with a list of formatting modifications
(`DisplayString` in the source); ranges are `(start, end)` byte offsets. -/
structure DisplayString where
  value : String
  formatting : List ((Nat × Nat) × Formatting)
  pending_formatting : List (Nat × Formatting)
deriving DecidableEq, Repr

/-- Byte length of the buffer (`DisplayString::len`, i.e. `value.len()`). -/
def DisplayString.len (s : DisplayString) : Nat :=
  s.value.utf8ByteSize

/-- Embedding of `DisplayString::new`. -/
def DisplayString.new : DisplayString :=
  ⟨"", [], []⟩

/-- Embedding of `DisplayString::from_str`. -/
def DisplayString.from_str (s : String) : DisplayString :=
  ⟨s, [], []⟩

/-- Embedding of `impl Add<Self> for DisplayString` (and the identical `AddAssign<Self>`):
append the operand's committed spans shifted by the receiver's current byte
length, then append the text; the operand's pending spans are dropped. -/
def DisplayString.add (a b : DisplayString) : DisplayString :=
  { value := a.value ++ b.value
    formatting := a.formatting ++ b.formatting.map (fun e => offset_format_range e a.len)
    pending_formatting := a.pending_formatting }

/-- Embedding of `impl AddAssign<&str> for DisplayString`: plain text append, no spans. -/
def DisplayString.addStr (a : DisplayString) (s : String) : DisplayString :=
  { a with value := a.value ++ s }

/-- The enumerated loop of `DisplayString::join`: before every item whose
index is non-zero the joiner is appended as plain text. -/
def joinFold (joiner : String) (res : DisplayString) :
    Nat → List DisplayString → DisplayString
  | _, [] => res
  | i, e :: rest =>
    let res := if i ≠ 0 then res.addStr joiner else res
    joinFold joiner (res.add e) (i + 1) rest

/-- Embedding of `DisplayString::join`. -/
def DisplayString.join (items : List DisplayString) (joiner : String) : DisplayString :=
  joinFold joiner DisplayString.new 0 items

/-- Event-list construction of `print_ansi_vt100`: each non-`NoHyphenation`
span contributes a start event `(kind, start, false)` and an end event
`(kind, end, true)`, in span order. -/
def buildEvents : List ((Nat × Nat) × Formatting) → List (Formatting × Nat × Bool)
  | [] => []
  | item :: rest =>
    if item.2 = Formatting.NoHyphenation then buildEvents rest
    else (item.2, item.1.1, false) :: (item.2, item.1.2, true) :: buildEvents rest

/-- Stable insertion into a descending-by-position list; among equal
positions the inserted (originally earlier) event stays first. -/
def insertDesc (x : Formatting × Nat × Bool) :
    List (Formatting × Nat × Bool) → List (Formatting × Nat × Bool)
  | [] => [x]
  | y :: ys => if y.2.1 ≤ x.2.1 then x :: y :: ys else y :: insertDesc x ys

/-- Embedding of `start_end.sort_by(|a, b| a.1.cmp(&b.1).reverse())`:
Rust's stable sort descending by position, realised as a stable
insertion sort. -/
def sortDesc : List (Formatting × Nat × Bool) → List (Formatting × Nat × Bool)
  | [] => []
  | x :: xs => insertDesc x (sortDesc xs)

/-- Escape code chosen in the renderer loop: `"0"` for any end event,
`"1"` for a Bold start, `"3"` for an Italic start. The `NoHyphenation`
start case is `unreachable!()` in the source (such events are filtered
out before sorting); the embedding returns `""` there, and the
unreachability is proved separately. -/
def ansiCode (f : Formatting) (isEnd : Bool) : String :=
  if isEnd then "0"
  else
    match f with
    | Formatting.Bold => "1"
    | Formatting.Italic => "3"
    | Formatting.NoHyphenation => ""

/-- The back-to-front assembly loop of `print_ansi_vt100`: at each event
prepend the slice between the event's position and the cursor, then the
escape marker, and move the cursor to the event's position. Returns the
accumulated string and the final cursor. -/
def ansiLoop (value : String) :
    List (Formatting × Nat × Bool) → String → Nat → String × Nat
  | [], res, pointer => (res, pointer)
  | (f, index, isEnd) :: rest, res, pointer =>
    ansiLoop value rest
      (("\x1b[" ++ ansiCode f isEnd ++ "m") ++ (value.extract ⟨index⟩ ⟨pointer⟩ ++ res))
      index

/-- Embedding of `DisplayString::print_ansi_vt100`. -/
def DisplayString.print_ansi_vt100 (s : DisplayString) : String :=
  let start_end := sortDesc (buildEvents s.formatting)
  let rp := ansiLoop s.value start_end "" s.len
  s.value.extract ⟨0⟩ ⟨rp.2⟩ ++ rp.1

/-! ## Helper instances and string lemmas -/

instance : DecidableEq (Except CitationError String) :=
  fun a b =>
    match a, b with
    | Except.error x, Except.error y =>
      if h : x = y then Decidable.isTrue (by rw [h])
      else Decidable.isFalse (fun hc => h (Except.error.inj hc))
    | Except.error _, Except.ok _ => Decidable.isFalse (fun hc => Except.noConfusion hc)
    | Except.ok _, Except.error _ => Decidable.isFalse (fun hc => Except.noConfusion hc)
    | Except.ok x, Except.ok y =>
      if h : x = y then Decidable.isTrue (by rw [h])
      else Decidable.isFalse (fun hc => h (Except.ok.inj hc))

/-- Extracting the empty byte range of a string yields the empty string. -/
theorem extract_same_pos (s : String) (p : Nat) : s.extract ⟨p⟩ ⟨p⟩ = "" := by
  cases s with
  | mk data => simp [String.extract]

/-- A non-empty string has positive UTF-8 byte length. -/
theorem utf8ByteSize_pos_of_ne_empty (s : String) (h : s ≠ "") : 0 < s.utf8ByteSize := by
  cases s with
  | mk data =>
    cases data with
    | nil => simp at h
    | cons c cs =>
      simp only [String.utf8ByteSize, String.utf8ByteSize.go]
      have := Char.utf8Size_pos c
      omega

/-- Extracting the full byte range of a string yields the string itself. -/
theorem extract_full (s : String) : s.extract ⟨0⟩ ⟨s.utf8ByteSize⟩ = s :=
  String.extract_zero_endPos s

/-! ## Lemmas about the numeric formatter's phases -/

/-- A single compaction step never sets the dead-arm flag. -/
theorem compactStep_deadArm (st : CompactState) (p : Nat × Option String)
    (st' : CompactState) (h : compactStep st p = some st') :
    st'.deadArm = st.deadArm := by
  cases hp : p.2 with
  | some s =>
    simp [compactStep, hp] at h
    simp [← h]
  | none =>
    simp only [compactStep, hp] at h
    unfold citeMatch at h
    cases hl : st.elems.getLast? with
    | none =>
      simp [hl, hp] at h
      simp [← h]
    | some el =>
      cases el with
      | Single n s =>
        simp [hl, hp] at h
        simp [← h]
      | Range a b =>
        simp only [hl] at h
        by_cases h0 : p.1 = 0
        · simp [h0] at h
        · by_cases hm : b = p.1 - 1
          · simp [h0, hm] at h
            simp [← h]
          · simp [h0, hm, hp] at h
            simp [← h]

/-- The compaction loop never sets the dead-arm flag. -/
theorem compactLoop_deadArm (ids : List (Nat × Option String)) :
    ∀ (st st' : CompactState), compactLoop st ids = some st' →
      st'.deadArm = st.deadArm := by
  induction ids with
  | nil => intro st st' h; simp [compactLoop] at h; simp [← h]
  | cons p rest ih =>
    intro st st' h
    simp only [compactLoop] at h
    cases hs : compactStep st p with
    | none => rw [hs] at h; simp at h
    | some st1 =>
      rw [hs] at h
      simp only at h
      calc st'.deadArm = st1.deadArm := ih st1 st' h
        _ = st.deadArm := compactStep_deadArm st p st1 hs

/-- The number-and-supplement pairs collected from the citation list keep
only numbers that occur in some item. -/
theorem collectIds_numbers (entries : List String) :
    ∀ (citation : List AtomicCitation) (ids : List (Nat × Option String)),
      collectIds entries citation = Except.ok ids →
      ∀ p ∈ ids, ∃ a ∈ citation, a.number = some p.1 := by
  intro citation
  induction citation with
  | nil =>
    intro ids h
    simp [collectIds] at h
    subst h
    simp
  | cons a rest ih =>
    intro ids h
    simp only [collectIds] at h
    by_cases hk : a.key ∈ entries
    · simp only [List.contains, List.elem_eq_mem, hk, decide_True, Bool.not_true,
        Bool.false_eq_true, if_false] at h
      cases hn : a.number with
      | none => rw [hn] at h; simp at h
      | some n =>
        rw [hn] at h
        simp only at h
        cases hr : collectIds entries rest with
        | error e => rw [hr] at h; simp at h
        | ok tl =>
          rw [hr] at h
          simp only [Except.ok.injEq] at h
          intro p hp
          rw [← h] at hp
          cases hp with
          | head => exact ⟨a, List.mem_cons_self a rest, hn⟩
          | tail _ hp' =>
            obtain ⟨b, hb, hbn⟩ := ih tl hr p hp'
            exact ⟨b, List.mem_cons_of_mem a hb, hbn⟩
    · simp [hk] at h

/-- Membership in a stable ascending insertion. -/
theorem mem_insertAsc (x p : Nat × Option String) :
    ∀ l, p ∈ insertAsc x l → p = x ∨ p ∈ l := by
  intro l
  induction l with
  | nil => intro h; simp [insertAsc] at h; exact Or.inl h
  | cons y ys ih =>
    intro h
    simp only [insertAsc] at h
    by_cases hle : x.1 ≤ y.1
    · simp [hle] at h
      rcases h with h | h | h
      · exact Or.inl h
      · exact Or.inr (by simp [h])
      · exact Or.inr (List.mem_cons_of_mem y h)
    · simp [hle] at h
      rcases h with h | h
      · exact Or.inr (by simp [h])
      · rcases ih h with h' | h'
        · exact Or.inl h'
        · exact Or.inr (List.mem_cons_of_mem y h')

/-- Membership after sorting implies membership before sorting. -/
theorem mem_sortAsc (p : Nat × Option String) :
    ∀ l, p ∈ sortAsc l → p ∈ l := by
  intro l
  induction l with
  | nil => intro h; simp [sortAsc] at h
  | cons x xs ih =>
    intro h
    simp only [sortAsc] at h
    rcases mem_insertAsc x p (sortAsc xs) h with h' | h'
    · simp [h']
    · exact List.mem_cons_of_mem x (ih h')

/-- On pairs whose numbers are all positive, a compaction step never hits
the underflow. -/
theorem compactStep_total (st : CompactState) (p : Nat × Option String)
    (hp : 1 ≤ p.1) : ∃ st', compactStep st p = some st' := by
  rw [← Option.isSome_iff_exists]
  cases hs : p.2 with
  | some s => simp [compactStep, hs]
  | none =>
    simp only [compactStep, hs]
    unfold citeMatch
    cases hl : st.elems.getLast? with
    | none => simp [hs]
    | some el =>
      cases el with
      | Single n t => simp [hs]
      | Range a b =>
        have h0 : ¬ p.1 = 0 := by omega
        by_cases hm : b = p.1 - 1
        · simp [h0, hm]
        · simp [h0, hm, hs]

/-- On lists of pairs whose numbers are all positive, the compaction loop
always terminates with a result. -/
theorem compactLoop_total :
    ∀ (ids : List (Nat × Option String)), (∀ p ∈ ids, 1 ≤ p.1) →
      ∀ st, ∃ st', compactLoop st ids = some st' := by
  intro ids
  induction ids with
  | nil => intro _ st; exact ⟨st, rfl⟩
  | cons p rest ih =>
    intro h st
    obtain ⟨st1, hst1⟩ := compactStep_total st p (h p (List.mem_cons_self p rest))
    obtain ⟨st', hst'⟩ := ih (fun q hq => h q (List.mem_cons_of_mem p hq)) st1
    exact ⟨st', by simp [compactLoop, hst1, hst']⟩

/-- If every key of the citation list is a known entry and every item has a
number, collection succeeds. -/
theorem collectIds_total (entries : List String) :
    ∀ (citation : List AtomicCitation),
      (∀ a ∈ citation, a.key ∈ entries ∧ a.number.isSome) →
      ∃ ids, collectIds entries citation = Except.ok ids := by
  intro citation
  induction citation with
  | nil => intro _; exact ⟨[], rfl⟩
  | cons a rest ih =>
    intro h
    obtain ⟨hk, hn⟩ := h a (List.mem_cons_self a rest)
    obtain ⟨n, hn'⟩ := Option.isSome_iff_exists.mp hn
    obtain ⟨tl, htl⟩ := ih (fun b hb => h b (List.mem_cons_of_mem a hb))
    refine ⟨(n, a.supplement) :: tl, ?_⟩
    simp [collectIds, hk, hn', htl]

/-- Statement-side characterisation of the numeric formatter's fail-fast
error: the first offending item in input order, checking key existence
before the number, determines the error. -/
def firstError (entries : List String) : List AtomicCitation → Option CitationError
  | [] => none
  | a :: rest =>
    if !entries.contains a.key then some (CitationError.KeyNotFound a.key)
    else
      match a.number with
      | none => some (CitationError.NoNumber a.key)
      | some _ => firstError entries rest

/-- The collection phase returns exactly the first offending item's error. -/
theorem collectIds_firstError (entries : List String) :
    ∀ (citation : List AtomicCitation) (e : CitationError),
      firstError entries citation = some e →
      collectIds entries citation = Except.error e := by
  intro citation
  induction citation with
  | nil => intro e h; simp [firstError] at h
  | cons a rest ih =>
    intro e h
    simp only [firstError] at h
    by_cases hk : a.key ∈ entries
    · simp only [List.contains, List.elem_eq_mem, hk, decide_True, Bool.not_true,
        Bool.false_eq_true, if_false] at h
      cases hn : a.number with
      | none =>
        rw [hn] at h
        simp only [Option.some.injEq] at h
        simp [collectIds, hk, hn, h]
      | some n =>
        rw [hn] at h
        simp only at h
        simp [collectIds, hk, hn, ih e h]
    · simp only [List.contains, List.elem_eq_mem, hk, decide_False, Bool.not_false,
        if_true, Option.some.injEq] at h
      simp [collectIds, hk, ← h]

/-- Statement-side characterisation: the key of the first input item whose
key is absent from the entries view. -/
def firstAbsent (entries : List String) : List AtomicCitation → Option String
  | [] => none
  | a :: rest =>
    if !entries.contains a.key then some a.key else firstAbsent entries rest

/-- Statement-side characterisation: every item strictly before the first
absent-key item carries a number. -/
def numbersBeforeFirstAbsent (entries : List String) : List AtomicCitation → Bool
  | [] => true
  | a :: rest =>
    if !entries.contains a.key then true
    else a.number.isSome && numbersBeforeFirstAbsent entries rest

/-- The key-based collection phase fails with `KeyNotFound` on the first
absent key. -/
theorem keyCollect_firstAbsent (entries : List String) :
    ∀ (citation : List AtomicCitation) (k : String),
      firstAbsent entries citation = some k →
      keyCollect entries citation = Except.error (CitationError.KeyNotFound k) := by
  intro citation
  induction citation with
  | nil => intro k h; simp [firstAbsent] at h
  | cons a rest ih =>
    intro k h
    simp only [firstAbsent] at h
    by_cases hk : a.key ∈ entries
    · simp only [List.contains, List.elem_eq_mem, hk, decide_True, Bool.not_true,
        Bool.false_eq_true, if_false] at h
      simp [keyCollect, hk, ih k h]
    · simp only [List.contains, List.elem_eq_mem, hk, decide_False, Bool.not_false,
        if_true, Option.some.injEq] at h
      simp [keyCollect, hk, ← h]

/-- If every item before the first absent key has a number, the numeric
collection phase fails with `KeyNotFound` on the first absent key. -/
theorem collectIds_firstAbsent (entries : List String) :
    ∀ (citation : List AtomicCitation) (k : String),
      firstAbsent entries citation = some k →
      numbersBeforeFirstAbsent entries citation = true →
      collectIds entries citation = Except.error (CitationError.KeyNotFound k) := by
  intro citation
  induction citation with
  | nil => intro k h; simp [firstAbsent] at h
  | cons a rest ih =>
    intro k h hb
    simp only [firstAbsent] at h
    simp only [numbersBeforeFirstAbsent] at hb
    by_cases hk : a.key ∈ entries
    · simp only [List.contains, List.elem_eq_mem, hk, decide_True, Bool.not_true,
        Bool.false_eq_true, if_false] at h hb
      obtain ⟨hn, hb'⟩ := Bool.and_eq_true_iff.mp hb
      obtain ⟨n, hn'⟩ := Option.isSome_iff_exists.mp hn
      simp [collectIds, hk, hn', ih k h hb']
    · simp only [List.contains, List.elem_eq_mem, hk, decide_False, Bool.not_false,
        if_true, Option.some.injEq] at h
      simp [collectIds, hk, ← h]

/-! ## Claim theorems: numeric formatter -/

/-- C5: the fallback arm of the compaction loop's match that is guarded by
the current item having a supplement is unreachable: whenever the loop
completes from a state with a clear dead-arm flag, the flag is still clear,
because the early `continue` diverts every supplemented item before the
match is reached. -/
theorem numeric_dead_arm_unreachable (ids : List (Nat × Option String))
    (es : List CiteElement) (st' : CompactState)
    (h : compactLoop ⟨es, false⟩ ids = some st') : st'.deadArm = false :=
  compactLoop_deadArm ids ⟨es, false⟩ st' h

/-- Witness for C5 at a concrete run of the compaction loop. -/
theorem numeric_dead_arm_unreachable_witness :
    (⟨[CiteElement.Range 1 2, CiteElement.Single 4 (some "p.9"),
        CiteElement.Range 5 5], false⟩ : CompactState).deadArm = false :=
  numeric_dead_arm_unreachable
    [(1, none), (2, none), (4, some "p.9"), (5, none)] [] _ (by decide)

/-- C6: the numeric formatter fails fast with the first offending item's
error, checking key existence before the number for each item; in
particular a leading item with an absent key and no number yields
`KeyNotFound`, not `NoNumber`. -/
theorem numeric_error_order :
    (∀ (entries : List String) (citation : List AtomicCitation) (e : CitationError),
      firstError entries citation = some e →
      numericalGetReference entries citation = some (Except.error e)) ∧
    (∀ (entries : List String) (k : String) (sup : Option String)
      (rest : List AtomicCitation), k ∉ entries →
      numericalGetReference entries (⟨k, sup, none⟩ :: rest) =
        some (Except.error (CitationError.KeyNotFound k))) := by
  constructor
  · intro entries citation e h
    simp [numericalGetReference, collectIds_firstError entries citation e h]
  · intro entries k sup rest hk
    simp [numericalGetReference, collectIds, hk]

/-- Witness for C6 at concrete inputs: a present key without a number gives
`NoNumber`, and an absent key without a number gives `KeyNotFound`. -/
theorem numeric_error_order_witness :
    numericalGetReference ["a"] [⟨"a", none, none⟩] =
      some (Except.error (CitationError.NoNumber "a")) ∧
    numericalGetReference ["a"] [⟨"b", none, none⟩] =
      some (Except.error (CitationError.KeyNotFound "b")) :=
  ⟨numeric_error_order.1 ["a"] [⟨"a", none, none⟩]
      (CitationError.NoNumber "a") (by decide),
    numeric_error_order.2 ["a"] "b" none [] (by decide)⟩

/-- C9: when all keys are known and every assigned number is positive, the
subtraction `number - 1` in the range-merge guard cannot underflow, so the
formatter always computes a result (a marker when every item also has a
number); positivity is load-bearing, as two items numbered 0 drive the
guard's subtraction into an underflow. -/
theorem numeric_positive_numbers_no_underflow :
    (∀ (entries : List String) (citation : List AtomicCitation),
      (∀ a ∈ citation, a.key ∈ entries ∧ ∀ n, a.number = some n → 1 ≤ n) →
      ∃ r, numericalGetReference entries citation = some r) ∧
    (∀ (entries : List String) (citation : List AtomicCitation),
      (∀ a ∈ citation, a.key ∈ entries ∧ ∃ n, a.number = some n ∧ 1 ≤ n) →
      ∃ s, numericalGetReference entries citation = some (Except.ok s)) ∧
    numericalGetReference ["a", "b"]
      [⟨"a", none, some 0⟩, ⟨"b", none, some 0⟩] = none := by
  refine ⟨?_, ?_, by rfl⟩
  · intro entries citation H
    cases hc : collectIds entries citation with
    | error e => exact ⟨Except.error e, by simp [numericalGetReference, hc]⟩
    | ok ids =>
      have hpos : ∀ p ∈ sortAsc ids, 1 ≤ p.1 := by
        intro p hp
        obtain ⟨a, ha, han⟩ :=
          collectIds_numbers entries citation ids hc p (mem_sortAsc p ids hp)
        exact (H a ha).2 p.1 han
      obtain ⟨st, hst⟩ := compactLoop_total (sortAsc ids) hpos ⟨[], false⟩
      exact ⟨Except.ok ("[" ++ joinStrings "; " (st.elems.map renderElem) ++ "]"),
        by simp [numericalGetReference, hc, hst]⟩
  · intro entries citation H
    obtain ⟨ids, hc⟩ := collectIds_total entries citation (by
      intro a ha
      obtain ⟨hk, n, hn, _⟩ := H a ha
      exact ⟨hk, by simp [hn]⟩)
    have hpos : ∀ p ∈ sortAsc ids, 1 ≤ p.1 := by
      intro p hp
      obtain ⟨a, ha, han⟩ :=
        collectIds_numbers entries citation ids hc p (mem_sortAsc p ids hp)
      obtain ⟨_, n, hn, hge⟩ := H a ha
      rw [hn] at han
      cases han
      exact hge
    obtain ⟨st, hst⟩ := compactLoop_total (sortAsc ids) hpos ⟨[], false⟩
    exact ⟨"[" ++ joinStrings "; " (st.elems.map renderElem) ++ "]",
      by simp [numericalGetReference, hc, hst]⟩

/-- Witness for C9 at a concrete input with positive numbers. -/
theorem numeric_positive_numbers_no_underflow_witness :
    ∃ s, numericalGetReference ["a", "b"]
      [⟨"a", none, some 2⟩, ⟨"b", none, some 1⟩] = some (Except.ok s) :=
  numeric_positive_numbers_no_underflow.2.1 ["a", "b"]
    [⟨"a", none, some 2⟩, ⟨"b", none, some 1⟩]
    (by
      intro a ha
      simp only [List.mem_cons, List.not_mem_nil, or_false] at ha
      rcases ha with h | h <;> subst h <;> refine ⟨by decide, ?_⟩
      · exact ⟨2, rfl, by decide⟩
      · exact ⟨1, rfl, by decide⟩)

/-- C10: the numeric formatter never merges or deduplicates equal numbers:
two supplement-free citations with the same positive number produce two
separate elements, because the merge rule only extends a range whose end is
the predecessor of the current number. -/
theorem numeric_equal_numbers_not_merged (entries : List String)
    (k1 k2 : String) (n : Nat) (hn : 1 ≤ n)
    (h1 : k1 ∈ entries) (h2 : k2 ∈ entries) :
    numericalGetReference entries [⟨k1, none, some n⟩, ⟨k2, none, some n⟩] =
      some (Except.ok ("[" ++ toString n ++ "; " ++ toString n ++ "]")) := by
  have hne : ¬ n = n - 1 := by omega
  have h0 : ¬ n = 0 := by omega
  simp [numericalGetReference, collectIds, h1, h2, sortAsc, insertAsc,
    compactLoop, compactStep, citeMatch, h0, hne, renderElem, joinStrings,
    String.append_assoc]

/-- Witness for C10 at a concrete input. -/
theorem numeric_equal_numbers_not_merged_witness :
    numericalGetReference ["a"] [⟨"a", none, some 1⟩, ⟨"a", none, some 1⟩] =
      some (Except.ok "[1; 1]") := by
  rw [numeric_equal_numbers_not_merged ["a"] "a" "a" 1 (by decide)
    (by decide) (by decide)]
  decide

/-- C3: a sorted pair carrying a supplement is always emitted as a
standalone single element and never merged into a range; the pair right
after a single always starts a fresh element (the merge check only matches
a trailing range); and the worked example renders as `[1-2; 4, p.9; 5]`. -/
theorem numeric_supplement_standalone :
    (∀ (st : CompactState) (n : Nat) (s : String),
      compactStep st (n, some s) =
        some { st with elems := st.elems ++ [CiteElement.Single n (some s)] }) ∧
    (∀ (st : CompactState) (n m : Nat) (sup t : Option String),
      st.elems.getLast? = some (CiteElement.Single m t) →
      compactStep st (n, sup) =
        some { st with elems := st.elems ++
          [match sup with
           | some s => CiteElement.Single n (some s)
           | none => CiteElement.Range n n] }) ∧
    numericalGetReference ["a", "b", "c", "d"]
      [⟨"a", none, some 1⟩, ⟨"b", none, some 2⟩,
       ⟨"c", some "p.9", some 4⟩, ⟨"d", none, some 5⟩] =
      some (Except.ok "[1-2; 4, p.9; 5]") := by
  refine ⟨?_, ?_, by decide⟩
  · intro st n s
    rfl
  · intro st n m sup t h
    cases sup with
    | some s => rfl
    | none => simp [compactStep, citeMatch, h]

/-- Witness for C3: a supplemented pair emitted standalone, and a fresh
range right after a single. -/
theorem numeric_supplement_standalone_witness :
    compactStep ⟨[CiteElement.Range 1 2], false⟩ (4, some "p.9") =
      some ⟨[CiteElement.Range 1 2, CiteElement.Single 4 (some "p.9")], false⟩ ∧
    compactStep ⟨[CiteElement.Single 4 (some "p.9")], false⟩ (5, none) =
      some ⟨[CiteElement.Single 4 (some "p.9"), CiteElement.Range 5 5], false⟩ := by
  constructor
  · rw [numeric_supplement_standalone.1 ⟨[CiteElement.Range 1 2], false⟩ 4 "p.9"]
    decide
  · rw [numeric_supplement_standalone.2.1 ⟨[CiteElement.Single 4 (some "p.9")], false⟩
      5 4 none (some "p.9") (by decide)]
    decide

/-- C4: supplement-free consecutive numbers merge into inclusive ranges, a
degenerate range prints the bare number, a proper range prints
`start-end`, and the worked example renders as `[1-3; 5-6; 8]` (elements
joined by `"; "` inside brackets). -/
theorem numeric_range_compaction :
    (∀ (st : CompactState) (s e n : Nat),
      st.elems.getLast? = some (CiteElement.Range s e) → 1 ≤ n → e = n - 1 →
      compactStep st (n, none) =
        some { st with elems := st.elems.dropLast ++ [CiteElement.Range s n] }) ∧
    (∀ s : Nat, renderElem (CiteElement.Range s s) = toString s) ∧
    (∀ s e : Nat, s ≠ e →
      renderElem (CiteElement.Range s e) = toString s ++ "-" ++ toString e) ∧
    numericalGetReference ["a", "b", "c", "d", "e", "f"]
      [⟨"a", none, some 1⟩, ⟨"b", none, some 2⟩, ⟨"c", none, some 3⟩,
       ⟨"d", none, some 5⟩, ⟨"e", none, some 6⟩, ⟨"f", none, some 8⟩] =
      some (Except.ok "[1-3; 5-6; 8]") := by
  refine ⟨?_, ?_, ?_, by decide⟩
  · intro st s e n h hp hm
    have h0 : ¬ n = 0 := by omega
    simp [compactStep, citeMatch, h, h0, hm]
  · intro s
    simp [renderElem]
  · intro s e h
    simp [renderElem, h]

/-- Witness for C4: merging 3 into the trailing range 1-2, and the two
range renderings. -/
theorem numeric_range_compaction_witness :
    compactStep ⟨[CiteElement.Range 1 2], false⟩ (3, none) =
      some ⟨[CiteElement.Range 1 3], false⟩ ∧
    renderElem (CiteElement.Range 8 8) = "8" ∧
    renderElem (CiteElement.Range 1 3) = "1-3" := by
  refine ⟨?_, ?_, ?_⟩
  · rw [numeric_range_compaction.1 ⟨[CiteElement.Range 1 2], false⟩ 1 2 3
      (by decide) (by decide) (by decide)]
    decide
  · rw [numeric_range_compaction.2.1 8]
    decide
  · rw [numeric_range_compaction.2.2.1 1 3 (by decide)]
    decide

/-- C1 counterexample: the input `[{key "a" (present), no number},
{key "b" (absent), number 1}]` contains an absent key whose first
occurrence is "b", yet the numeric formatter does not return
`KeyNotFound "b"`: it fails earlier with `NoNumber "a"`. -/
theorem both_formatters_keynotfound_cex :
    firstAbsent ["a"] [⟨"a", none, none⟩, ⟨"b", none, some 1⟩] = some "b" ∧
    numericalGetReference ["a"] [⟨"a", none, none⟩, ⟨"b", none, some 1⟩] =
      some (Except.error (CitationError.NoNumber "a")) ∧
    numericalGetReference ["a"] [⟨"a", none, none⟩, ⟨"b", none, some 1⟩] ≠
      some (Except.error (CitationError.KeyNotFound "b")) := by
  refine ⟨by decide, by decide, by decide⟩

/-- C1 amended: on any input with at least one absent key the key-based
formatter returns `KeyNotFound` with the first absent key, and the numeric
formatter does so too provided every item preceding the first absent-key
item carries a number; neither produces a partial marker. -/
theorem both_formatters_keynotfound_amended :
    (∀ (entries : List String) (citation : List AtomicCitation) (k : String),
      firstAbsent entries citation = some k →
      keyGetReference entries citation =
        Except.error (CitationError.KeyNotFound k)) ∧
    (∀ (entries : List String) (citation : List AtomicCitation) (k : String),
      firstAbsent entries citation = some k →
      numbersBeforeFirstAbsent entries citation = true →
      numericalGetReference entries citation =
        some (Except.error (CitationError.KeyNotFound k))) := by
  constructor
  · intro entries citation k h
    simp [keyGetReference, keyCollect_firstAbsent entries citation k h]
  · intro entries citation k h hb
    simp [numericalGetReference, collectIds_firstAbsent entries citation k h hb]

/-- Witness for C1 amended at a concrete input with an absent key. -/
theorem both_formatters_keynotfound_amended_witness :
    keyGetReference ["a"] [⟨"a", some "p.3", none⟩, ⟨"b", none, some 1⟩] =
      Except.error (CitationError.KeyNotFound "b") ∧
    numericalGetReference ["a"] [⟨"a", none, some 1⟩, ⟨"b", none, some 2⟩] =
      some (Except.error (CitationError.KeyNotFound "b")) :=
  ⟨both_formatters_keynotfound_amended.1 ["a"]
      [⟨"a", some "p.3", none⟩, ⟨"b", none, some 1⟩] "b" (by decide),
    both_formatters_keynotfound_amended.2 ["a"]
      [⟨"a", none, some 1⟩, ⟨"b", none, some 2⟩] "b" (by decide) (by decide)⟩

/-! ## Lemmas about DisplayString.join -/

/-- Value accumulated by the join loop after the first item: every further
item is preceded by the joiner. -/
theorem joinFold_value (joiner : String) :
    ∀ (items : List DisplayString) (res : DisplayString) (i : Nat), i ≠ 0 →
      (joinFold joiner res i items).value =
        res.value ++
          (items.map DisplayString.value).foldr (fun w acc => joiner ++ w ++ acc) "" := by
  intro items
  induction items with
  | nil => intro res i h; simp [joinFold]
  | cons e rest ih =>
    intro res i h
    simp only [joinFold, h, if_true, ne_eq, not_false_eq_true]
    rw [ih (DisplayString.add (res.addStr joiner) e) (i + 1) (by omega)]
    simp [DisplayString.add, DisplayString.addStr, String.append_assoc]

/-- Folding joiner-prefixed values after a head value is exactly
`joinStrings`. -/
theorem joinStrings_eq_foldr (joiner v : String) :
    ∀ vs : List String,
      v ++ vs.foldr (fun w acc => joiner ++ w ++ acc) "" =
        joinStrings joiner (v :: vs) := by
  intro vs
  induction vs generalizing v with
  | nil => simp [joinStrings]
  | cons w ws ih =>
    simp only [List.foldr_cons]
    rw [show joinStrings joiner (v :: w :: ws) = v ++ joiner ++ joinStrings joiner (w :: ws)
      from rfl, ← ih w]
    simp [String.append_assoc]

/-- The join loop leaves the committed spans empty when every input item
has no committed spans (the joiner itself never contributes spans). -/
theorem joinFold_formatting (joiner : String) :
    ∀ (items : List DisplayString) (res : DisplayString) (i : Nat),
      (∀ d ∈ items, d.formatting = []) → res.formatting = [] →
      (joinFold joiner res i items).formatting = [] := by
  intro items
  induction items with
  | nil => intro res i _ hres; simpa [joinFold] using hres
  | cons e rest ih =>
    intro res i h hres
    simp only [joinFold]
    apply ih _ (i + 1) (fun d hd => h d (List.mem_cons_of_mem e hd))
    by_cases hi : i ≠ 0 <;>
      simp [hi, DisplayString.add, DisplayString.addStr, hres,
        h e (List.mem_cons_self e rest)]

/-- C2 counterexample: joining `["", "a"]` with separator `","`. The two
consecutive items are not both non-empty, so the claim predicts the plain
concatenation `"" ++ "a"`; the code inserts the separator anyway. -/
theorem join_separator_cex :
    (DisplayString.join [DisplayString.from_str "", DisplayString.from_str "a"]
        ",").value = ",a" ∧
    (DisplayString.join [DisplayString.from_str "", DisplayString.from_str "a"]
        ",").value ≠ "" ++ "a" := by
  refine ⟨by decide, by decide⟩

/-- C2 amended: `join(items, separator)` returns a RichText whose text is
the items' texts concatenated with the separator inserted as plain
unformatted text between every pair of consecutive items, also empty ones
(before each item but the first); the empty list yields an empty RichText,
and the separator contributes no formatting spans. -/
theorem join_value_amended :
    (∀ (items : List DisplayString) (joiner : String),
      (DisplayString.join items joiner).value =
        joinStrings joiner (items.map DisplayString.value)) ∧
    (∀ joiner : String, DisplayString.join [] joiner = DisplayString.new) ∧
    (∀ (items : List DisplayString) (joiner : String),
      (∀ d ∈ items, d.formatting = []) →
      (DisplayString.join items joiner).formatting = []) := by
  refine ⟨?_, fun _ => rfl, ?_⟩
  · intro items joiner
    cases items with
    | nil => rfl
    | cons e rest =>
      show (joinFold joiner DisplayString.new 0 (e :: rest)).value = _
      simp only [joinFold, ne_eq, not_true_eq_false, if_false]
      rw [joinFold_value joiner rest (DisplayString.add DisplayString.new e) 1 (by omega)]
      have hv : (DisplayString.add DisplayString.new e).value = e.value := by
        simp [DisplayString.add, DisplayString.new]
      rw [hv, List.map_cons, ← joinStrings_eq_foldr]
  · intro items joiner h
    exact joinFold_formatting joiner items DisplayString.new 0 h rfl

/-- Witness for C2 amended at concrete inputs. -/
theorem join_value_amended_witness :
    (DisplayString.join [DisplayString.from_str "x", DisplayString.from_str "",
        DisplayString.from_str "y"] "; ").value = "x; ; y" ∧
    (DisplayString.join [DisplayString.from_str "x", DisplayString.from_str "y"]
        ", ").formatting = [] := by
  constructor
  · rw [join_value_amended.1 [DisplayString.from_str "x", DisplayString.from_str "",
      DisplayString.from_str "y"] "; "]
    decide
  · exact join_value_amended.2.2 [DisplayString.from_str "x", DisplayString.from_str "y"]
      ", " (by decide)

/-- C8: concatenating `b` onto `a` (with `b` having no pending spans)
appends the text, keeps every committed span of `a` unchanged in place,
and appends every committed span of `b` with both endpoints shifted by
exactly the byte length of `a` before the concatenation. -/
theorem add_span_offsets (a b : DisplayString) (h : b.pending_formatting = []) :
    (DisplayString.add a b).value = a.value ++ b.value ∧
    (DisplayString.add a b).formatting.take a.formatting.length = a.formatting ∧
    (DisplayString.add a b).formatting.drop a.formatting.length =
      b.formatting.map (fun e =>
        ((e.1.1 + a.value.utf8ByteSize, e.1.2 + a.value.utf8ByteSize), e.2)) := by
  refine ⟨rfl, ?_, ?_⟩
  · simp [DisplayString.add, List.take_left]
  · simp [DisplayString.add, List.drop_left, offset_format_range, DisplayString.len]

/-- Witness for C8 at concrete rich-text values with one span each. -/
theorem add_span_offsets_witness :
    (DisplayString.add ⟨"ab", [((0, 1), Formatting.Bold)], []⟩
        ⟨"cd", [((0, 2), Formatting.Italic)], []⟩).formatting.drop 1 =
      [((2, 4), Formatting.Italic)] ∧
    (DisplayString.add ⟨"ab", [((0, 1), Formatting.Bold)], []⟩
        ⟨"cd", [((0, 2), Formatting.Italic)], []⟩).formatting.take 1 =
      [((0, 1), Formatting.Bold)] := by
  have h := add_span_offsets ⟨"ab", [((0, 1), Formatting.Bold)], []⟩
    ⟨"cd", [((0, 2), Formatting.Italic)], []⟩ rfl
  exact ⟨by simpa using h.2.2, by simpa using h.2.1⟩

/-! ## Lemmas about the ANSI renderer -/

/-- No event built from the committed spans carries `NoHyphenation`: such
spans are filtered out before the event list is sorted. -/
theorem buildEvents_no_noHyphenation :
    ∀ (fmts : List ((Nat × Nat) × Formatting)) (ev : Formatting × Nat × Bool),
      ev ∈ buildEvents fmts → ev.1 ≠ Formatting.NoHyphenation := by
  intro fmts
  induction fmts with
  | nil => intro ev h; simp [buildEvents] at h
  | cons item rest ih =>
    intro ev h
    simp only [buildEvents] at h
    by_cases hf : item.2 = Formatting.NoHyphenation
    · rw [if_pos hf] at h
      exact ih ev h
    · rw [if_neg hf] at h
      simp only [List.mem_cons] at h
      rcases h with h | h | h
      · simp [h, hf]
      · simp [h, hf]
      · exact ih ev h

/-- C7 counterexample: a RichText whose committed spans are exactly one
Bold span covering its entire (empty) text. The two events share position
0, the stable descending sort keeps the start event first, and the
back-to-front loop therefore prepends the reset code in front of the bold
code: the render is `"\x1b[0m\x1b[1m"`, not `"\x1b[1m" ++ text ++ "\x1b[0m"`. -/
theorem render_ansi_bold_cex :
    (⟨"", [((0, 0), Formatting.Bold)], []⟩ : DisplayString).formatting =
      [((0, ("" : String).utf8ByteSize), Formatting.Bold)] ∧
    DisplayString.print_ansi_vt100 ⟨"", [((0, 0), Formatting.Bold)], []⟩ =
      "\x1b[0m\x1b[1m" ∧
    DisplayString.print_ansi_vt100 ⟨"", [((0, 0), Formatting.Bold)], []⟩ ≠
      "\x1b[1m" ++ "" ++ "\x1b[0m" := by
  refine ⟨by decide, by decide, by decide⟩

/-- C7 amended: for every RichText whose committed spans are exactly one
Bold span covering its entire non-empty text, the ANSI render is
`"\x1b[1m" ++ text ++ "\x1b[0m"`; the renderer emits code "1" for a Bold
start, "3" for an Italic start, "0" for every end event; `NoHyphenation`
spans contribute no events; and a RichText with no committed spans
renders as its plain text unchanged. -/
theorem render_ansi_codes :
    (∀ d : DisplayString, d.value ≠ "" →
      d.formatting = [((0, d.value.utf8ByteSize), Formatting.Bold)] →
      d.print_ansi_vt100 = "\x1b[1m" ++ d.value ++ "\x1b[0m") ∧
    ansiCode Formatting.Bold false = "1" ∧
    ansiCode Formatting.Italic false = "3" ∧
    (∀ f : Formatting, ansiCode f true = "0") ∧
    (∀ (fmts : List ((Nat × Nat) × Formatting)) (ev : Formatting × Nat × Bool),
      ev ∈ buildEvents fmts → ev.1 ≠ Formatting.NoHyphenation) ∧
    (∀ d : DisplayString, d.formatting = [] → d.print_ansi_vt100 = d.value) := by
  refine ⟨?_, rfl, rfl, fun f => rfl, buildEvents_no_noHyphenation, ?_⟩
  · intro d hne hf
    have hN : 0 < d.value.utf8ByteSize := utf8ByteSize_pos_of_ne_empty _ hne
    have hNle : ¬ (d.value.utf8ByteSize ≤ 0) := by omega
    have hx : d.value.extract ⟨d.value.utf8ByteSize⟩ ⟨d.value.utf8ByteSize⟩ = "" :=
      extract_same_pos _ _
    have hfull : d.value.extract 0 ⟨d.value.utf8ByteSize⟩ = d.value := extract_full _
    have hzero : d.value.extract 0 0 = "" := extract_same_pos d.value 0
    simp [DisplayString.print_ansi_vt100, hf, buildEvents, sortDesc, insertDesc,
      hNle, ansiLoop, ansiCode, DisplayString.len, hx, hfull, hzero,
      String.append_assoc]
  · intro d hf
    have hfull : d.value.extract 0 ⟨d.value.utf8ByteSize⟩ = d.value := extract_full _
    simp [DisplayString.print_ansi_vt100, hf, buildEvents, sortDesc, ansiLoop,
      DisplayString.len, hfull]

/-- Witness for C7 amended at a concrete non-empty Bold-wrapped text and a
concrete span-free text. -/
theorem render_ansi_codes_witness :
    DisplayString.print_ansi_vt100 ⟨"ab", [((0, 2), Formatting.Bold)], []⟩ =
      "\x1b[1mab\x1b[0m" ∧
    DisplayString.print_ansi_vt100 ⟨"xyz", [], []⟩ = "xyz" := by
  constructor
  · rw [render_ansi_codes.1 ⟨"ab", [((0, 2), Formatting.Bold)], []⟩
      (by decide) (by decide)]
    decide
  · exact render_ansi_codes.2.2.2.2.2 ⟨"xyz", [], []⟩ rfl
